import Mathlib

/-!
Shallow embedding of the ngcc run-cache orchestrator
(angular-cli, packages/ngtools/webpack/src/ngcc_processor.ts).

File contents are modelled as Lean String values (byte-for-byte); the
external collaborators (file system, module resolver, subprocess spawner,
sha256 digest) are modelled as explicit fields of an Env record, so each
operation of the source class NgccProcessor becomes a pure function of
that record.
-/

namespace Ngcc

/-! ## Model of the Node path collaborator (posix flavour) -/

/-- Splits a character list on the slash character, keeping empty segments
(model of the segment splitting done inside Node path normalization). -/
def splitSlashes : List Char → List (List Char)
  | [] => [[]]
  | c :: rest =>
    if c = '/' then [] :: splitSlashes rest
    else
      match splitSlashes rest with
      | [] => [[c]]
      | seg :: segs => (c :: seg) :: segs

/-- Stack-based segment normalization: drops empty and dot segments and
resolves dot-dot segments against the stack, keeping leading dot-dot
segments only for relative paths (model of Node normalizeString). -/
def normSegsAux (allowUp : Bool) : List (List Char) → List (List Char) → List (List Char)
  | stack, [] => stack
  | stack, seg :: rest =>
    if seg = [] ∨ seg = ['.'] then normSegsAux allowUp stack rest
    else if seg = ['.', '.'] then
      match stack with
      | [] => normSegsAux allowUp (if allowUp then [seg] else []) rest
      | top :: stk =>
        if top = ['.', '.'] then normSegsAux allowUp (seg :: top :: stk) rest
        else normSegsAux allowUp stk rest
    else normSegsAux allowUp (seg :: stack) rest

/-- Joins path segments with slashes. -/
def joinSegs : List (List Char) → List Char
  | [] => []
  | [seg] => seg
  | seg :: rest => seg ++ '/' :: joinSegs rest

/-- Character-level path normalization (model of Node path.posix.normalize,
without trailing-slash preservation, which no modelled call site observes). -/
def normChars (l : List Char) : List Char :=
  match l with
  | [] => ['.']
  | c :: _ =>
    let isAbs : Bool := c == '/'
    let segs := (normSegsAux (!isAbs) [] (splitSlashes l)).reverse
    let body := joinSegs segs
    if isAbs then '/' :: body
    else if body = [] then ['.']
    else body

/-- Model of Node path.posix.normalize. -/
def posixNormalize (p : String) : String := String.mk (normChars p.data)

/-- Model of Node path.posix.join for the two-argument call sites of the
source file. -/
def posixJoin (a b : String) : String :=
  if a = "" ∧ b = "" then "."
  else if a = "" then posixNormalize b
  else if b = "" then posixNormalize a
  else posixNormalize (String.mk (a.data ++ '/' :: b.data))

/-- Model of Node path.resolve for the call pattern
resolve(base, "../package.json") used by the source (the base path handed
in by the compiler host is absolute, where resolve and join coincide). -/
def posixResolve (a b : String) : String := posixJoin a b

/-- Keeps the nonempty, non-dot segments of a path. -/
def stripSegs (l : List Char) : List (List Char) :=
  (splitSlashes l).filter (fun s => !(s == [] || s == ['.']))

/-- Drops the common leading segments of two segment lists. -/
def dropCommonAux : List (List Char) → List (List Char) → List (List Char) × List (List Char)
  | a :: as, b :: bs => if a = b then dropCommonAux as bs else (a :: as, b :: bs)
  | as, bs => (as, bs)

/-- Simplified model of Node path.posix.relative: strip the common prefix,
then climb with dot-dot segments and descend into the target. Only the
byte value of its output feeds the digest, so claims do not depend on
finer Node details. -/
def posixRelative (fromPath toPath : String) : String :=
  let pr := dropCommonAux (stripSegs fromPath.data) (stripSegs toPath.data)
  String.mk (joinSegs (pr.1.map (fun _ => ['.', '.']) ++ pr.2))

/-- Drops characters up to and including the first slash; none when the
list has no slash. -/
def dropThroughSlash : List Char → Option (List Char)
  | [] => none
  | c :: rest => if c = '/' then some rest else dropThroughSlash rest

/-- Character-level model of Node path.posix.dirname, mirroring its
backwards scan: skip the trailing slash run, then cut at the next slash
(positions past the first character only). -/
def dirnameChars : List Char → List Char
  | [] => ['.']
  | c0 :: rest =>
    match dropThroughSlash (rest.reverse.dropWhile (fun c => c == '/')) with
    | none => if c0 = '/' then ['/'] else ['.']
    | some revBody =>
      if c0 = '/' ∧ revBody = [] then ['/', '/']
      else c0 :: revBody.reverse

/-- Model of Node path.posix.dirname (the loop step of
NgccProcessor.findNodeModulesDirectory). -/
def posixDirname (p : String) : String := String.mk (dirnameChars p.data)

/-! ## Termination measure for the parent-directory walk -/

/-- Measure on character lists under which dirname strictly decreases
whenever it moves. -/
def charMeasure (l : List Char) : Nat :=
  2 * l.length + (if l = ['.'] ∨ l = ['/'] then 0 else 3)

/-- Measure on paths under which posixDirname strictly decreases whenever
it moves; bounds the number of loop iterations of the node_modules walk. -/
def pathMeasure (s : String) : Nat := charMeasure s.data

theorem charMeasure_le (l : List Char) : charMeasure l ≤ 2 * l.length + 3 := by
  unfold charMeasure
  split <;> omega

theorem charMeasure_pos (l : List Char) : 1 ≤ charMeasure l := by
  unfold charMeasure
  split
  · rename_i h
    rcases h with h | h <;> subst h <;> simp
  · omega

theorem dropThroughSlash_length {l r : List Char} (h : dropThroughSlash l = some r) :
    r.length + 1 ≤ l.length := by
  induction l with
  | nil => simp [dropThroughSlash] at h
  | cons c rest ih =>
    rw [dropThroughSlash] at h
    by_cases hc : c = '/'
    · rw [if_pos hc] at h
      cases h
      simp
    · rw [if_neg hc] at h
      have := ih h
      simp only [List.length_cons]
      omega

theorem dropWhileBool_length_le (p : Char → Bool) (l : List Char) :
    (l.dropWhile p).length ≤ l.length := by
  induction l with
  | nil => simp
  | cons a as ih =>
    rw [List.dropWhile_cons]
    by_cases h : p a
    · rw [if_pos h]
      simp only [List.length_cons]
      omega
    · rw [if_neg h]

theorem dropWhileBool_head_not (p : Char → Bool) (l : List Char) {c : Char} {t : List Char}
    (h : l.dropWhile p = c :: t) : p c = false := by
  induction l with
  | nil => simp [List.dropWhile] at h
  | cons a as ih =>
    rw [List.dropWhile_cons] at h
    by_cases hp : p a
    · rw [if_pos hp] at h
      exact ih h
    · rw [if_neg hp] at h
      cases h
      cases hpb : p c
      · rfl
      · exact absurd hpb hp

theorem list_ne_of_length_ne {α : Type} {a b : List α} (h : a.length ≠ b.length) : a ≠ b :=
  fun he => h (he ▸ rfl)

theorem dirnameChars_measure_lt (l : List Char) (h : dirnameChars l ≠ l) :
    charMeasure (dirnameChars l) < charMeasure l := by
  match l with
  | [] =>
    simp only [dirnameChars]
    simp [charMeasure]
  | c0 :: rest =>
    rw [dirnameChars] at h ⊢
    cases hds : dropThroughSlash (rest.reverse.dropWhile (fun c => c == '/')) with
    | none =>
      rw [hds] at h
      replace h : (if c0 = '/' then ['/'] else ['.']) ≠ c0 :: rest := h
      show charMeasure (if c0 = '/' then ['/'] else ['.']) < charMeasure (c0 :: rest)
      by_cases hc : c0 = '/'
      · rw [if_pos hc] at h ⊢
        have h1 : c0 :: rest ≠ ['.'] := by
          intro he
          cases he
          exact absurd hc (by decide)
        have h2 : c0 :: rest ≠ ['/'] := fun he => h he.symm
        have hm : charMeasure (c0 :: rest) = 2 * (rest.length + 1) + 3 := by
          unfold charMeasure
          rw [if_neg (by tauto)]
          simp
        rw [hm]
        simp [charMeasure]
      · rw [if_neg hc] at h ⊢
        have h1 : c0 :: rest ≠ ['.'] := fun he => h he.symm
        have h2 : c0 :: rest ≠ ['/'] := by
          intro he
          cases he
          exact absurd rfl hc
        have hm : charMeasure (c0 :: rest) = 2 * (rest.length + 1) + 3 := by
          unfold charMeasure
          rw [if_neg (by tauto)]
          simp
        rw [hm]
        simp [charMeasure]
    | some revBody =>
      rw [hds] at h
      replace h :
          (if c0 = '/' ∧ revBody = [] then ['/', '/'] else c0 :: revBody.reverse) ≠ c0 :: rest := h
      show charMeasure (if c0 = '/' ∧ revBody = [] then ['/', '/'] else c0 :: revBody.reverse) <
        charMeasure (c0 :: rest)
      have hlen : revBody.length + 1 ≤ rest.length := by
        have h1 := dropThroughSlash_length hds
        have h2 := dropWhileBool_length_le (fun c => c == '/') rest.reverse
        simp only [List.length_reverse] at h2
        omega
      by_cases hcb : c0 = '/' ∧ revBody = []
      · rw [if_pos hcb]
        -- result is the double slash; the input must have at least two
        -- characters after the head, so its measure is at least nine
        have htrim : 2 ≤ (rest.reverse.dropWhile (fun c => c == '/')).length := by
          cases htr : rest.reverse.dropWhile (fun c => c == '/') with
          | nil => rw [htr] at hds; simp [dropThroughSlash] at hds
          | cons x xs =>
            have hx : (fun c => c == '/') x = false :=
              dropWhileBool_head_not (fun c => c == '/') rest.reverse htr
            rw [htr] at hds
            rw [dropThroughSlash] at hds
            rw [if_neg (by simpa using hx)] at hds
            have hlen2 := dropThroughSlash_length hds
            rcases hcb with ⟨_, hrb⟩
            rw [hrb] at hlen2
            simp only [List.length_cons, List.length_nil] at hlen2 ⊢
            omega
        have hrest : 2 ≤ rest.length := by
          have h2 := dropWhileBool_length_le (fun c => c == '/') rest.reverse
          simp only [List.length_reverse] at h2
          omega
        have hne1 : c0 :: rest ≠ ['.'] := by
          apply list_ne_of_length_ne
          simp only [List.length_cons, List.length_nil]
          omega
        have hne2 : c0 :: rest ≠ ['/'] := by
          apply list_ne_of_length_ne
          simp only [List.length_cons, List.length_nil]
          omega
        have hm : charMeasure (c0 :: rest) = 2 * (rest.length + 1) + 3 := by
          unfold charMeasure
          rw [if_neg (by tauto)]
          simp
        rw [hm]
        have h77 : charMeasure ['/', '/'] = 7 := by decide
        rw [h77]
        omega
      · rw [if_neg hcb]
        have hres : charMeasure (c0 :: revBody.reverse) ≤ 2 * (revBody.length + 1) + 3 := by
          have hb := charMeasure_le (c0 :: revBody.reverse)
          simpa using hb
        have hne1 : c0 :: rest ≠ ['.'] := by
          apply list_ne_of_length_ne
          simp only [List.length_cons, List.length_nil]
          omega
        have hne2 : c0 :: rest ≠ ['/'] := by
          apply list_ne_of_length_ne
          simp only [List.length_cons, List.length_nil]
          omega
        have hm : charMeasure (c0 :: rest) = 2 * (rest.length + 1) + 3 := by
          unfold charMeasure
          rw [if_neg (by tauto)]
          simp
        rw [hm]
        omega

theorem pathMeasure_posixDirname_lt (p : String) (h : posixDirname p ≠ p) :
    pathMeasure (posixDirname p) < pathMeasure p := by
  have hd : dirnameChars p.data ≠ p.data := by
    intro he
    apply h
    show String.mk (dirnameChars p.data) = p
    rw [he]
  exact dirnameChars_measure_lt p.data hd

theorem posixDirname_ne_of_chars_ne (p : String) (h : dirnameChars p.data ≠ p.data) :
    posixDirname p ≠ p := by
  intro he
  exact h (congrArg String.data he)

/-! ## NgccProcessor.findNodeModulesDirectory

The source loop is

  while (path.dirname(current) !== current) (check, step)

embedded with explicit fuel; pathMeasure strictly decreases at every
step, so fuel pathMeasure startPoint always suffices (proved below). -/

/-- One fuel-indexed unfolding of the while loop of
NgccProcessor.findNodeModulesDirectory. -/
def findNMDGo (ex : String → Bool) : Nat → String → Option String
  | 0, _ => none
  | fuel + 1, current =>
    if posixDirname current = current then none
    else
      if ex (posixJoin current "node_modules") then some (posixJoin current "node_modules")
      else findNMDGo ex fuel (posixDirname current)

/-- NgccProcessor.findNodeModulesDirectory: walk parent directories from
the start point, returning the first node_modules directory that exists,
or none once the filesystem root (the dirname fixpoint) is reached. -/
def findNodeModulesDirectory (ex : String → Bool) (startPoint : String) : Option String :=
  findNMDGo ex (pathMeasure startPoint) startPoint

/-- The chain of directories the walk visits: the start point and its
iterated parent directories, up to (excluding) the dirname fixpoint. -/
def dirnameChainGo : Nat → String → List String
  | 0, _ => []
  | fuel + 1, s =>
    if posixDirname s = s then []
    else s :: dirnameChainGo fuel (posixDirname s)

/-- The chain of candidate directories from the base path upward. -/
def dirnameChain (s : String) : List String := dirnameChainGo (pathMeasure s) s

theorem findNMDGo_fuel_irrelevant (ex : String → Bool) :
    ∀ f1 f2 s, pathMeasure s ≤ f1 → pathMeasure s ≤ f2 →
      findNMDGo ex f1 s = findNMDGo ex f2 s := by
  intro f1
  induction f1 with
  | zero =>
    intro f2 s h1 _
    have := charMeasure_pos s.data
    exact absurd h1 (by unfold pathMeasure at *; omega)
  | succ n ih =>
    intro f2 s h1 h2
    match f2 with
    | 0 =>
      have := charMeasure_pos s.data
      exact absurd h2 (by unfold pathMeasure at *; omega)
    | m + 1 =>
      rw [findNMDGo, findNMDGo]
      by_cases hfix : posixDirname s = s
      · rw [if_pos hfix, if_pos hfix]
      · rw [if_neg hfix, if_neg hfix]
        by_cases hex : ex (posixJoin s "node_modules")
        · rw [if_pos hex, if_pos hex]
        · rw [if_neg hex, if_neg hex]
          have hlt := pathMeasure_posixDirname_lt s hfix
          exact ih m (posixDirname s) (by omega) (by omega)

theorem findNMDGo_eq_chain_findSome (ex : String → Bool) :
    ∀ fuel s, findNMDGo ex fuel s = (dirnameChainGo fuel s).findSome?
      (fun c => if ex (posixJoin c "node_modules")
        then some (posixJoin c "node_modules") else none) := by
  intro fuel
  induction fuel with
  | zero => intro s; rfl
  | succ n ih =>
    intro s
    rw [findNMDGo, dirnameChainGo]
    by_cases hfix : posixDirname s = s
    · rw [if_pos hfix, if_pos hfix]
      rfl
    · rw [if_neg hfix, if_neg hfix, List.findSome?_cons]
      by_cases hex : ex (posixJoin s "node_modules")
      · rw [if_pos hex, if_pos hex]
      · rw [if_neg hex, if_neg hex]
        exact ih (posixDirname s)

/-! ## Lock file search and the run fingerprint -/

/-- The errors the fingerprint phase of NgccProcessor.process can raise
internally; all of them are caught by its try/catch. -/
inductive FingerprintError where
  | noLockFileFound
  | tsconfigUnreadable
deriving DecidableEq

/-- The fixed candidate list of NgccProcessor.findPackageManagerLockFile. -/
def lockFileCandidates : List String := ["yarn.lock", "pnpm-lock.yaml", "package-lock.json"]

/-- The for loop of NgccProcessor.findPackageManagerLockFile: try each
candidate in order, returning path and data of the first readable one. -/
def findLockFileAux (readFile : String → Option String) (projectBasePath : String) :
    List String → Except FingerprintError (String × String)
  | [] => Except.error FingerprintError.noLockFileFound
  | name :: rest =>
    match readFile (posixJoin projectBasePath name) with
    | some data => Except.ok (posixJoin projectBasePath name, data)
    | none => findLockFileAux readFile projectBasePath rest

/-- NgccProcessor.findPackageManagerLockFile. -/
def findPackageManagerLockFile (readFile : String → Option String) (projectBasePath : String) :
    Except FingerprintError (String × String) :=
  findLockFileAux readFile projectBasePath lockFileCandidates

/-- The byte stream fed to createHash sha256 through the successive
update calls of NgccProcessor.process (source lines 90 to 96), in source
order: lockFileData, lockFilePath, ngccConfigData, tsconfigData,
relativeTsconfigPath. The digest input is the concatenation of these
five byte sequences. -/
def hashInput (lockFileData lockFilePath ngccConfigData tsconfigData
    relativeTsconfigPath : String) : String :=
  lockFileData ++ lockFilePath ++ ngccConfigData ++ tsconfigData ++ relativeTsconfigPath

/-! ## The environment record: external collaborators of NgccProcessor -/

/-- External state and collaborators of one NgccProcessor invocation:
constructor arguments (basePath, tsConfigPath), the file system store,
the webpack resolver, the environment signal, the subprocess spawner
outcome, the marker write outcome, the in-process ngcc call outcome and
the sha256 digest. readFile returns none where readFileSync throws;
resolveSync returns Except.error where webpack resolveSync throws and
Except.ok none where it returns a falsy value; spawnStatus is the
subprocess exit status; transformThrows tells, per target entry point,
whether the in-process compilerNgcc.process call throws. -/
structure Env where
  bazelTarget : Bool
  basePath : String
  tsConfigPath : String
  readFile : String → Option String
  fsExists : String → Bool
  writable : String → Bool
  resolveSync : String → String → Except Unit (Option String)
  spawnStatus : Int
  markerWriteOk : Bool
  transformThrows : String → Bool
  hash : String → String

/-- isReadOnlyFile: the accessSync write probe fails. -/
def isReadOnlyFile (env : Env) (fileName : String) : Bool := !env.writable fileName

/-- NgccProcessor.tryResolvePackage: ask the resolver for
moduleName/package.json relative to the resolved file; on a thrown
resolution, fall back to the package.json one directory above the
resolved file, used only if it exists. -/
def tryResolvePackage (env : Env) (moduleName resolvedFileName : String) : Option String :=
  match env.resolveSync resolvedFileName (moduleName ++ "/package.json") with
  | Except.ok resolvedPath => resolvedPath
  | Except.error _ =>
    if env.fsExists (posixResolve resolvedFileName "../package.json")
    then some (posixResolve resolvedFileName "../package.json")
    else none

/-- The read-only check on the resolved @angular/core package performed
at the top of NgccProcessor.process. -/
def coreReadOnly (env : Env) (nodeModulesDirectory : String) : Bool :=
  match tryResolvePackage env "@angular/core" nodeModulesDirectory with
  | some corePackage => isReadOnlyFile env corePackage
  | none => false

/-- The fingerprint phase of NgccProcessor.process (the body of its try
block, source lines 77 to 105): read the optional ngcc.config.js (empty
data when unreadable), the tsconfig and the lock file, and assemble the
run hash marker path under runHashBasePath. Errors here model the
exceptions the outer catch swallows. -/
def computeRunHashFilePath (env : Env) (nodeModulesDirectory : String) :
    Except FingerprintError String :=
  let runHashBasePath := posixJoin nodeModulesDirectory ".cli-ngcc"
  let projectBasePath := posixJoin nodeModulesDirectory ".."
  let ngccConfigData := (env.readFile (posixJoin projectBasePath "ngcc.config.js")).getD ""
  let relativeTsconfigPath := posixRelative projectBasePath env.tsConfigPath
  match env.readFile env.tsConfigPath with
  | none => Except.error FingerprintError.tsconfigUnreadable
  | some tsconfigData =>
    match findPackageManagerLockFile env.readFile projectBasePath with
    | Except.error e => Except.error e
    | Except.ok (lockFilePath, lockFileData) =>
      Except.ok (posixJoin runHashBasePath
        (env.hash (hashInput lockFileData lockFilePath ngccConfigData tsconfigData
          relativeTsconfigPath) ++ ".lock"))

/-- Observable outcome of NgccProcessor.process: whether the ngcc
subprocess was spawned, whether the run marker file was written, and
whether the call threw (nonzero subprocess exit status). -/
structure RunResult where
  spawned : Bool
  markerWritten : Bool
  threw : Bool
deriving DecidableEq

/-- NgccProcessor.process, the whole-tree run gate: early skips (BAZEL
signal, missing node_modules, read-only @angular/core), the caught
fingerprint phase, the marker existence check, the subprocess spawn and
the non-fatal marker write. -/
def process (env : Env) : RunResult :=
  if env.bazelTarget then ⟨false, false, false⟩
  else
    match findNodeModulesDirectory env.fsExists env.basePath with
    | none => ⟨false, false, false⟩
    | some nodeModulesDirectory =>
      if coreReadOnly env nodeModulesDirectory then ⟨false, false, false⟩
      else
        let runHashFilePath : Option String :=
          match computeRunHashFilePath env nodeModulesDirectory with
          | Except.ok p => some p
          | Except.error _ => none
        let skipProcessing : Bool :=
          match runHashFilePath with
          | some p => env.fsExists p
          | none => false
        if skipProcessing then ⟨false, false, false⟩
        else if env.spawnStatus ≠ 0 then ⟨true, false, true⟩
        else
          match runHashFilePath with
          | some _ => ⟨true, env.markerWriteOk, false⟩
          | none => ⟨true, false, false⟩

/-! ## IncrementalProcessor: processModule and invalidate -/

/-- The moduleName.startsWith(".") guard of processModule. -/
def startsWithDot (moduleName : String) : Bool :=
  match moduleName.data with
  | [] => false
  | c :: _ => c == '.'

/-- Set insertion for the processed modules set. -/
def addPath (p : String) (st : List String) : List String :=
  if p ∈ st then st else p :: st

/-- NgccProcessor.invalidate: Set.delete on the processed modules set. -/
def invalidate (st : List String) (fileName : String) : List String :=
  st.filter (fun x => x != fileName)

/-- Observable outcome of NgccProcessor.processModule: the processed set
afterwards, whether the resolver was consulted, whether the in-process
ngcc Transformer was invoked, which cached file (if any) was purged, and
whether the call threw. -/
structure ModuleResult where
  state : List String
  resolverCalled : Bool
  transformed : Bool
  purged : Option String
  threw : Bool
deriving DecidableEq

/-- NgccProcessor.processModule: guards (missing node_modules, empty
resolved path, relative specifier, already processed), manifest
resolution with read-only probe, the in-process Transformer call, the
cache purge and the processed set update. -/
def processModule (env : Env) (st : List String) (moduleName resolvedFileName : String) :
    ModuleResult :=
  match findNodeModulesDirectory env.fsExists env.basePath with
  | none => ⟨st, false, false, none, false⟩
  | some _ =>
    if resolvedFileName = "" ∨ startsWithDot moduleName = true ∨ resolvedFileName ∈ st then
      ⟨st, false, false, none, false⟩
    else
      match tryResolvePackage env moduleName resolvedFileName with
      | none => ⟨addPath resolvedFileName st, true, false, none, false⟩
      | some packageJsonPath =>
        if isReadOnlyFile env packageJsonPath then
          ⟨addPath resolvedFileName st, true, false, none, false⟩
        else if env.transformThrows (posixDirname packageJsonPath) then
          ⟨st, true, true, none, true⟩
        else
          ⟨addPath resolvedFileName st, true, true, some packageJsonPath, false⟩

/-- Env with the marker directory creation or marker file write failing. -/
def markerFailEnv (env : Env) : Env := { env with markerWriteOk := false }

/-! ## Helper lemmas about the processed set -/

theorem mem_addPath_self (p : String) (st : List String) : p ∈ addPath p st := by
  unfold addPath
  split
  · assumption
  · exact List.mem_cons_self p st

theorem not_mem_invalidate (st : List String) (p : String) : p ∉ invalidate st p := by
  intro h
  have hm := (List.mem_filter.mp h).2
  simp at hm

theorem processModule_noop_of_mem (env : Env) (st : List String) (m p : String)
    (h : p ∈ st) : processModule env st m p = ⟨st, false, false, none, false⟩ := by
  unfold processModule
  cases findNodeModulesDirectory env.fsExists env.basePath with
  | none => rfl
  | some nmd =>
    rw [if_pos (Or.inr (Or.inr h))]

/-! ## Concrete environments used by the witnesses -/

/-- A concrete project: node_modules at /proj/node_modules, a tsconfig, a
resolver that finds the manifest of the pkg package, everything writable,
a transformer that does not throw. -/
def envW : Env where
  bazelTarget := false
  basePath := "/proj"
  tsConfigPath := "/proj/tsconfig.json"
  readFile := fun s => if s = "/proj/tsconfig.json" then some "tsdata" else none
  fsExists := fun s => s == "/proj/node_modules"
  writable := fun _ => true
  resolveSync := fun _ _ => Except.ok (some "/proj/node_modules/pkg/package.json")
  spawnStatus := 0
  markerWriteOk := true
  transformThrows := fun _ => false
  hash := fun _ => "HH"

/-- envW with an in-process transformer call that throws. -/
def envThrowW : Env := { envW with transformThrows := fun _ => true }

/-! ## Claim C6 -/

/-- C6: for every module specifier denoting a relative path (one starting
with dot-slash or dot-dot-slash) and every resolved path and every
processor state, processModule returns without invoking the Resolver or
the Transformer and without modifying the processed set: a pure no-op
with no error. -/
theorem relative_specifier_noop (env : Env) (st : List String)
    (moduleName resolvedFileName : String)
    (h : moduleName.data.take 2 = ['.', '/'] ∨ moduleName.data.take 3 = ['.', '.', '/']) :
    processModule env st moduleName resolvedFileName = ⟨st, false, false, none, false⟩ := by
  have hdot : startsWithDot moduleName = true := by
    unfold startsWithDot
    cases hm : moduleName.data with
    | nil =>
      rw [hm] at h
      rcases h with h | h <;> simp at h
    | cons c cs =>
      rw [hm] at h
      have hc : c = '.' := by
        rcases h with h | h
        · have hh := congrArg (fun l => l.head?) h
          simpa using hh
        · have hh := congrArg (fun l => l.head?) h
          simpa using hh
      rw [hc]
      rfl
  unfold processModule
  cases findNodeModulesDirectory env.fsExists env.basePath with
  | none => rfl
  | some nmd =>
    rw [if_pos (Or.inr (Or.inl hdot))]

/-- Witness for C6 at a concrete relative specifier. -/
theorem relative_specifier_noop_witness :
    processModule envW [] "./local" "/proj/node_modules/pkg/index.d.ts"
      = ⟨[], false, false, none, false⟩ :=
  relative_specifier_noop envW [] "./local" "/proj/node_modules/pkg/index.d.ts"
    (Or.inl (by decide))

/-! ## Claim C4 -/

/-- C4 counterexample: with a first call whose specifier is relative
(a no-op that records nothing), a second call on the same resolved path
is not a no-op — it invokes the Transformer and changes the processed
set. This refutes the claim as stated for arbitrary specifier pairs. -/
theorem processModule_second_call_not_noop_cex :
    ¬ ((processModule envW
          (processModule envW [] "./local" "/proj/node_modules/pkg/index.d.ts").state
          "pkg" "/proj/node_modules/pkg/index.d.ts").transformed = false
       ∧ (processModule envW
          (processModule envW [] "./local" "/proj/node_modules/pkg/index.d.ts").state
          "pkg" "/proj/node_modules/pkg/index.d.ts").state
         = (processModule envW [] "./local" "/proj/node_modules/pkg/index.d.ts").state) := by
  decide

/-- C4 (amended): for every resolved file path p and every pair of calls
processModule m1 p then processModule m2 p with no intervening
invalidate, provided the first call does not throw and m1 is not a
relative specifier, the Transformer is invoked at most once across the
two calls and the second call is a no-op that leaves all state
unchanged. -/
theorem processModule_twice_transform_at_most_once (env : Env) (st : List String)
    (m1 m2 p : String)
    (h1 : startsWithDot m1 = false)
    (h2 : (processModule env st m1 p).threw = false) :
    (processModule env (processModule env st m1 p).state m2 p).state
        = (processModule env st m1 p).state
    ∧ (processModule env (processModule env st m1 p).state m2 p).resolverCalled = false
    ∧ (processModule env (processModule env st m1 p).state m2 p).transformed = false
    ∧ (processModule env (processModule env st m1 p).state m2 p).purged = none
    ∧ (processModule env (processModule env st m1 p).state m2 p).threw = false
    ∧ ¬ ((processModule env st m1 p).transformed = true
        ∧ (processModule env (processModule env st m1 p).state m2 p).transformed = true) := by
  cases hn : findNodeModulesDirectory env.fsExists env.basePath with
  | none =>
    have e1 : ∀ m st0, processModule env st0 m p = ⟨st0, false, false, none, false⟩ := by
      intro m st0
      unfold processModule
      rw [hn]
    simp only [e1]
    simp
  | some nmd =>
    by_cases hcond : p = "" ∨ startsWithDot m1 = true ∨ p ∈ st
    · have e1 : processModule env st m1 p = ⟨st, false, false, none, false⟩ := by
        unfold processModule
        rw [hn]
        simp only [if_pos hcond]
      rcases hcond with hp | hd | hmem
      · have e2 : processModule env st m2 p = ⟨st, false, false, none, false⟩ := by
          unfold processModule
          rw [hn]
          rw [if_pos (Or.inl hp)]
        rw [e1]
        simp only [e2, e1]
        simp
      · exact absurd hd (by rw [h1] at *; simp)
      · have e2 : processModule env st m2 p = ⟨st, false, false, none, false⟩ :=
          processModule_noop_of_mem env st m2 p hmem
        rw [e1]
        simp only [e2, e1]
        simp
    · push_neg at hcond
      obtain ⟨hp, _, hmem⟩ := hcond
      have hc1 : ¬ (p = "" ∨ startsWithDot m1 = true ∨ p ∈ st) := by
        intro hc
        rcases hc with hc | hc | hc
        · exact hp hc
        · rw [h1] at hc; exact Bool.false_ne_true hc
        · exact hmem hc
      cases hr : tryResolvePackage env m1 p with
      | none =>
        have e1 : processModule env st m1 p = ⟨addPath p st, true, false, none, false⟩ := by
          unfold processModule
          rw [hn]
          rw [if_neg hc1]
          simp only [hr]
        have e2 : processModule env (addPath p st) m2 p
            = ⟨addPath p st, false, false, none, false⟩ :=
          processModule_noop_of_mem env (addPath p st) m2 p (mem_addPath_self p st)
        rw [e1]
        simp only [e2]
        simp
      | some pj =>
        cases hro : isReadOnlyFile env pj with
        | true =>
          have e1 : processModule env st m1 p = ⟨addPath p st, true, false, none, false⟩ := by
            unfold processModule
            rw [hn]
            rw [if_neg hc1]
            simp only [hr, hro]
            rfl
          have e2 : processModule env (addPath p st) m2 p
              = ⟨addPath p st, false, false, none, false⟩ :=
            processModule_noop_of_mem env (addPath p st) m2 p (mem_addPath_self p st)
          rw [e1]
          simp only [e2]
          simp
        | false =>
          cases htt : env.transformThrows (posixDirname pj) with
          | true =>
            have e1 : processModule env st m1 p = ⟨st, true, true, none, true⟩ := by
              unfold processModule
              rw [hn]
              rw [if_neg hc1]
              simp only [hr, hro, htt]
              rfl
            rw [e1] at h2
            exact absurd h2 (by simp)
          | false =>
            have e1 : processModule env st m1 p = ⟨addPath p st, true, true, some pj, false⟩ := by
              unfold processModule
              rw [hn]
              rw [if_neg hc1]
              simp only [hr, hro, htt]
              rfl
            have e2 : processModule env (addPath p st) m2 p
                = ⟨addPath p st, false, false, none, false⟩ :=
              processModule_noop_of_mem env (addPath p st) m2 p (mem_addPath_self p st)
            rw [e1]
            simp only [e2]
            simp

/-- Witness for the amended C4 at a concrete non-relative first call. -/
theorem processModule_twice_transform_at_most_once_witness :
    (processModule envW
        (processModule envW [] "pkg" "/proj/node_modules/pkg/index.d.ts").state
        "pkg" "/proj/node_modules/pkg/index.d.ts").transformed = false
    ∧ (processModule envW
        (processModule envW [] "pkg" "/proj/node_modules/pkg/index.d.ts").state
        "pkg" "/proj/node_modules/pkg/index.d.ts").state
      = (processModule envW [] "pkg" "/proj/node_modules/pkg/index.d.ts").state :=
  ⟨(processModule_twice_transform_at_most_once envW [] "pkg" "pkg"
      "/proj/node_modules/pkg/index.d.ts" (by decide) (by decide)).2.2.1,
   (processModule_twice_transform_at_most_once envW [] "pkg" "pkg"
      "/proj/node_modules/pkg/index.d.ts" (by decide) (by decide)).1⟩

/-! ## Claim C5 -/

/-- C5: for every path p, invalidate removes p from the processed set,
and a subsequent processModule on p behaves exactly like a first-ever
call under the same external conditions: it performs the same resolver,
transformer, purge and error actions as a call on a fresh processor, and
makes the corresponding state change (adds p when the fresh call would,
leaves the set alone when the fresh call would). -/
theorem invalidate_restores_fresh_behavior (env : Env) (st : List String) (m p : String) :
    (processModule env (invalidate st p) m p).resolverCalled
        = (processModule env [] m p).resolverCalled
    ∧ (processModule env (invalidate st p) m p).transformed
        = (processModule env [] m p).transformed
    ∧ (processModule env (invalidate st p) m p).purged = (processModule env [] m p).purged
    ∧ (processModule env (invalidate st p) m p).threw = (processModule env [] m p).threw
    ∧ (((processModule env (invalidate st p) m p).state = addPath p (invalidate st p)
          ∧ (processModule env [] m p).state = addPath p [])
       ∨ ((processModule env (invalidate st p) m p).state = invalidate st p
          ∧ (processModule env [] m p).state = [])) := by
  cases hn : findNodeModulesDirectory env.fsExists env.basePath with
  | none =>
    have e1 : ∀ st0, processModule env st0 m p = ⟨st0, false, false, none, false⟩ := by
      intro st0
      unfold processModule
      rw [hn]
    simp only [e1]
    exact ⟨by simp, by simp, by simp, by simp, Or.inr ⟨by simp, by simp⟩⟩
  | some nmd =>
    by_cases hpd : p = "" ∨ startsWithDot m = true
    · have e1 : ∀ st0, processModule env st0 m p = ⟨st0, false, false, none, false⟩ := by
        intro st0
        unfold processModule
        rw [hn]
        rcases hpd with h | h
        · rw [if_pos (Or.inl h)]
        · rw [if_pos (Or.inr (Or.inl h))]
      simp only [e1]
      exact ⟨by simp, by simp, by simp, by simp, Or.inr ⟨by simp, by simp⟩⟩
    · push_neg at hpd
      obtain ⟨hp, hd⟩ := hpd
      have hc1 : ¬ (p = "" ∨ startsWithDot m = true ∨ p ∈ invalidate st p) := by
        intro hc
        rcases hc with hc | hc | hc
        · exact hp hc
        · exact hd hc
        · exact not_mem_invalidate st p hc
      have hc2 : ¬ (p = "" ∨ startsWithDot m = true ∨ p ∈ ([] : List String)) := by
        intro hc
        rcases hc with hc | hc | hc
        · exact hp hc
        · exact hd hc
        · simp at hc
      cases hr : tryResolvePackage env m p with
      | none =>
        have e1 : processModule env (invalidate st p) m p
            = ⟨addPath p (invalidate st p), true, false, none, false⟩ := by
          unfold processModule
          rw [hn, if_neg hc1]
          simp only [hr]
        have e2 : processModule env [] m p = ⟨addPath p [], true, false, none, false⟩ := by
          unfold processModule
          rw [hn, if_neg hc2]
          simp only [hr]
        rw [e1, e2]
        exact ⟨rfl, rfl, rfl, rfl, Or.inl ⟨rfl, rfl⟩⟩
      | some pj =>
        cases hro : isReadOnlyFile env pj with
        | true =>
          have e1 : processModule env (invalidate st p) m p
              = ⟨addPath p (invalidate st p), true, false, none, false⟩ := by
            unfold processModule
            rw [hn, if_neg hc1]
            simp only [hr, hro]
            rfl
          have e2 : processModule env [] m p = ⟨addPath p [], true, false, none, false⟩ := by
            unfold processModule
            rw [hn, if_neg hc2]
            simp only [hr, hro]
            rfl
          rw [e1, e2]
          exact ⟨rfl, rfl, rfl, rfl, Or.inl ⟨rfl, rfl⟩⟩
        | false =>
          cases htt : env.transformThrows (posixDirname pj) with
          | true =>
            have e1 : processModule env (invalidate st p) m p
                = ⟨invalidate st p, true, true, none, true⟩ := by
              unfold processModule
              rw [hn, if_neg hc1]
              simp only [hr, hro, htt]
              rfl
            have e2 : processModule env [] m p = ⟨[], true, true, none, true⟩ := by
              unfold processModule
              rw [hn, if_neg hc2]
              simp only [hr, hro, htt]
              rfl
            rw [e1, e2]
            exact ⟨rfl, rfl, rfl, rfl, Or.inr ⟨rfl, rfl⟩⟩
          | false =>
            have e1 : processModule env (invalidate st p) m p
                = ⟨addPath p (invalidate st p), true, true, some pj, false⟩ := by
              unfold processModule
              rw [hn, if_neg hc1]
              simp only [hr, hro, htt]
              rfl
            have e2 : processModule env [] m p = ⟨addPath p [], true, true, some pj, false⟩ := by
              unfold processModule
              rw [hn, if_neg hc2]
              simp only [hr, hro, htt]
              rfl
            rw [e1, e2]
            exact ⟨rfl, rfl, rfl, rfl, Or.inl ⟨rfl, rfl⟩⟩

/-! ## Claim C10 -/

/-- C10: if the in-process Transformer call inside processModule throws,
the error propagates and the processor state is unchanged: the resolved
path is not added to the processed set and no cache purge happens, so a
later call with the same resolved path repeats the full resolution and
Transformer invocation. -/
theorem processModule_transform_error_atomic (env : Env) (st : List String) (m p : String)
    (h : (processModule env st m p).threw = true) :
    (processModule env st m p).state = st
    ∧ (processModule env st m p).purged = none
    ∧ (processModule env st m p).resolverCalled = true
    ∧ (processModule env st m p).transformed = true
    ∧ processModule env (processModule env st m p).state m p = processModule env st m p := by
  cases hn : findNodeModulesDirectory env.fsExists env.basePath with
  | none =>
    have e1 : processModule env st m p = ⟨st, false, false, none, false⟩ := by
      unfold processModule
      rw [hn]
    rw [e1] at h
    exact absurd h (by simp)
  | some nmd =>
    by_cases hc1 : p = "" ∨ startsWithDot m = true ∨ p ∈ st
    · have e1 : processModule env st m p = ⟨st, false, false, none, false⟩ := by
        unfold processModule
        rw [hn, if_pos hc1]
      rw [e1] at h
      exact absurd h (by simp)
    · cases hr : tryResolvePackage env m p with
      | none =>
        have e1 : processModule env st m p = ⟨addPath p st, true, false, none, false⟩ := by
          unfold processModule
          rw [hn, if_neg hc1]
          simp only [hr]
        rw [e1] at h
        exact absurd h (by simp)
      | some pj =>
        cases hro : isReadOnlyFile env pj with
        | true =>
          have e1 : processModule env st m p = ⟨addPath p st, true, false, none, false⟩ := by
            unfold processModule
            rw [hn, if_neg hc1]
            simp only [hr, hro]
            rfl
          rw [e1] at h
          exact absurd h (by simp)
        | false =>
          cases htt : env.transformThrows (posixDirname pj) with
          | true =>
            have e1 : processModule env st m p = ⟨st, true, true, none, true⟩ := by
              unfold processModule
              rw [hn, if_neg hc1]
              simp only [hr, hro, htt]
              rfl
            rw [e1]
            exact ⟨rfl, rfl, rfl, rfl, e1⟩
          | false =>
            have e1 : processModule env st m p = ⟨addPath p st, true, true, some pj, false⟩ := by
              unfold processModule
              rw [hn, if_neg hc1]
              simp only [hr, hro, htt]
              rfl
            rw [e1] at h
            exact absurd h (by simp)

/-- Witness for C10 at a concrete environment whose in-process
Transformer call throws. -/
theorem processModule_transform_error_atomic_witness :
    (processModule envThrowW [] "pkg" "/proj/node_modules/pkg/index.d.ts").threw = true
    ∧ (processModule envThrowW [] "pkg" "/proj/node_modules/pkg/index.d.ts").state = [] :=
  ⟨by decide,
   (processModule_transform_error_atomic envThrowW [] "pkg"
      "/proj/node_modules/pkg/index.d.ts" (by decide)).1⟩

/-! ## Claim C7 -/

/-- C7: the lock file search tries yarn.lock, pnpm-lock.yaml and
package-lock.json in this fixed precedence under the project base path,
returns path and contents of the first readable candidate, and fails
with the NoLockFileFound condition when none of the three is readable,
never returning a partial result. -/
theorem lock_file_search_precedence (rd : String → Option String) (base : String) :
    (∀ d, rd (posixJoin base "yarn.lock") = some d →
      findPackageManagerLockFile rd base = Except.ok (posixJoin base "yarn.lock", d))
    ∧ (rd (posixJoin base "yarn.lock") = none →
      ∀ d, rd (posixJoin base "pnpm-lock.yaml") = some d →
      findPackageManagerLockFile rd base = Except.ok (posixJoin base "pnpm-lock.yaml", d))
    ∧ (rd (posixJoin base "yarn.lock") = none → rd (posixJoin base "pnpm-lock.yaml") = none →
      ∀ d, rd (posixJoin base "package-lock.json") = some d →
      findPackageManagerLockFile rd base = Except.ok (posixJoin base "package-lock.json", d))
    ∧ (rd (posixJoin base "yarn.lock") = none → rd (posixJoin base "pnpm-lock.yaml") = none →
      rd (posixJoin base "package-lock.json") = none →
      findPackageManagerLockFile rd base = Except.error FingerprintError.noLockFileFound) := by
  refine ⟨?_, ?_, ?_, ?_⟩
  · intro d hd
    simp [findPackageManagerLockFile, lockFileCandidates, findLockFileAux, hd]
  · intro h1 d hd
    simp [findPackageManagerLockFile, lockFileCandidates, findLockFileAux, h1, hd]
  · intro h1 h2 d hd
    simp [findPackageManagerLockFile, lockFileCandidates, findLockFileAux, h1, h2, hd]
  · intro h1 h2 h3
    simp [findPackageManagerLockFile, lockFileCandidates, findLockFileAux, h1, h2, h3]

/-- Witness for C7: a project with no readable lock file candidate fails
with NoLockFileFound, and one with only a pnpm lock file returns it. -/
theorem lock_file_search_precedence_witness :
    findPackageManagerLockFile (fun _ => none) "/proj"
      = Except.error FingerprintError.noLockFileFound
    ∧ findPackageManagerLockFile
        (fun s => if s = "/proj/pnpm-lock.yaml" then some "pnpmdata" else none) "/proj"
      = Except.ok ("/proj/pnpm-lock.yaml", "pnpmdata") :=
  ⟨(lock_file_search_precedence (fun _ => none) "/proj").2.2.2 rfl rfl rfl,
   by
    have hw := (lock_file_search_precedence
      (fun s => if s = "/proj/pnpm-lock.yaml" then some "pnpmdata" else none) "/proj").2.1
      (by decide) "pnpmdata" (by decide)
    simpa using hw⟩

/-! ## Claim C8 -/

/-- C8: the dependency-root walk terminates for every input path: its
result equals the first existing node_modules directory along the finite
chain of iterated parent directories (none when the walk reaches the
dirname fixpoint, the filesystem root), each dirname step strictly
decreases the path measure, and any fuel bound at least the measure of
the start point yields the same result, so the loop never runs forever. -/
theorem findNodeModulesDirectory_terminates_and_finds_first (ex : String → Bool) (s : String) :
    findNodeModulesDirectory ex s = (dirnameChain s).findSome?
      (fun c => if ex (posixJoin c "node_modules")
        then some (posixJoin c "node_modules") else none)
    ∧ (∀ c, posixDirname c ≠ c → pathMeasure (posixDirname c) < pathMeasure c)
    ∧ (∀ fuel, pathMeasure s ≤ fuel → findNMDGo ex fuel s = findNodeModulesDirectory ex s) :=
  ⟨findNMDGo_eq_chain_findSome ex (pathMeasure s) s,
   fun c hc => pathMeasure_posixDirname_lt c hc,
   fun fuel hf => findNMDGo_fuel_irrelevant ex fuel (pathMeasure s) s hf le_rfl⟩

/-- Witness for C8 at a concrete filesystem with a node_modules directory
one level up from the start point. -/
theorem findNodeModulesDirectory_terminates_and_finds_first_witness :
    (posixDirname "/a/b" ≠ "/a/b" ∧ pathMeasure (posixDirname "/a/b") < pathMeasure "/a/b")
    ∧ findNMDGo (fun s => s == "/a/node_modules") 60 "/a/b"
        = findNodeModulesDirectory (fun s => s == "/a/node_modules") "/a/b"
    ∧ findNodeModulesDirectory (fun s => s == "/a/node_modules") "/a/b"
        = some "/a/node_modules" :=
  ⟨⟨by decide,
    (findNodeModulesDirectory_terminates_and_finds_first
      (fun s => s == "/a/node_modules") "/a/b").2.1 "/a/b" (by decide)⟩,
   (findNodeModulesDirectory_terminates_and_finds_first
      (fun s => s == "/a/node_modules") "/a/b").2.2 60 (by decide),
   by decide⟩

/-! ## Evaluation lemmas for the whole-tree gate -/

theorem process_bazel (env : Env) (h : env.bazelTarget = true) :
    process env = ⟨false, false, false⟩ := by
  unfold process
  rw [if_pos h]

theorem process_no_node_modules (env : Env) (hB : env.bazelTarget = false)
    (hN : findNodeModulesDirectory env.fsExists env.basePath = none) :
    process env = ⟨false, false, false⟩ := by
  unfold process
  rw [if_neg (by rw [hB]; simp), hN]

theorem process_core_read_only (env : Env) (nmd : String) (hB : env.bazelTarget = false)
    (hN : findNodeModulesDirectory env.fsExists env.basePath = some nmd)
    (hC : coreReadOnly env nmd = true) :
    process env = ⟨false, false, false⟩ := by
  unfold process
  rw [if_neg (by rw [hB]; simp), hN]
  simp only [hC, if_pos]

theorem process_eval (env : Env) (nmd : String) (hB : env.bazelTarget = false)
    (hN : findNodeModulesDirectory env.fsExists env.basePath = some nmd)
    (hC : coreReadOnly env nmd = false) :
    process env =
      match computeRunHashFilePath env nmd with
      | Except.ok p =>
        if env.fsExists p then ⟨false, false, false⟩
        else if env.spawnStatus ≠ 0 then ⟨true, false, true⟩
        else ⟨true, env.markerWriteOk, false⟩
      | Except.error _ =>
        if env.spawnStatus ≠ 0 then ⟨true, false, true⟩
        else ⟨true, false, false⟩ := by
  unfold process
  rw [if_neg (by rw [hB]; simp), hN]
  simp only [hC]
  cases hrh : computeRunHashFilePath env nmd with
  | ok p =>
    by_cases hex : env.fsExists p
    · simp [hex]
    · simp [hex]
  | error er => rfl

/-! ## Claim C2 -/

/-- C2: whenever the run marker file named by the current fingerprint
already exists under the .cli-ngcc directory of the dependency root, the
whole-tree operation returns without invoking the Transformer subprocess
and without writing any file. -/
theorem process_skips_when_marker_exists (env : Env) (nmd p : String)
    (hN : findNodeModulesDirectory env.fsExists env.basePath = some nmd)
    (hOk : computeRunHashFilePath env nmd = Except.ok p)
    (hEx : env.fsExists p = true) :
    (process env).spawned = false ∧ (process env).markerWritten = false := by
  cases hbz : env.bazelTarget with
  | true =>
    rw [process_bazel env hbz]
    exact ⟨rfl, rfl⟩
  | false =>
    cases hc : coreReadOnly env nmd with
    | true =>
      rw [process_core_read_only env nmd hbz hN hc]
      exact ⟨rfl, rfl⟩
    | false =>
      rw [process_eval env nmd hbz hN hc]
      simp [hOk, hEx]

/-- A concrete project for C2: yarn lock file and tsconfig readable, the
marker file for the resulting fingerprint already present on disk. -/
def envMarker : Env where
  bazelTarget := false
  basePath := "/proj"
  tsConfigPath := "/proj/tsconfig.json"
  readFile := fun s =>
    if s = "/proj/tsconfig.json" then some "tsdata"
    else if s = "/proj/yarn.lock" then some "lockdata"
    else none
  fsExists := fun s =>
    s == "/proj/node_modules" || s == "/proj/node_modules/.cli-ngcc/HH.lock"
  writable := fun _ => true
  resolveSync := fun _ _ => Except.ok none
  spawnStatus := 0
  markerWriteOk := true
  transformThrows := fun _ => false
  hash := fun _ => "HH"

/-- Witness for C2 at the concrete envMarker project. -/
theorem process_skips_when_marker_exists_witness :
    (process envMarker).spawned = false ∧ (process envMarker).markerWritten = false :=
  process_skips_when_marker_exists envMarker "/proj/node_modules"
    "/proj/node_modules/.cli-ngcc/HH.lock" (by decide) (by rfl) (by decide)

/-! ## Claim C3 -/

/-- C3: when the fingerprint computation fails (no lock file candidate
readable, or any other read failure) and the early-skip conditions do
not hold, the whole-tree operation does not throw from the fingerprint
phase and proceeds as decision run (fail open): the internal error of
the lock file search never surfaces, no marker is written, and the
operation throws only if the spawned subprocess itself fails. -/
theorem process_fail_open_on_fingerprint_error (env : Env) (nmd : String)
    (e : FingerprintError)
    (hB : env.bazelTarget = false)
    (hN : findNodeModulesDirectory env.fsExists env.basePath = some nmd)
    (hC : coreReadOnly env nmd = false)
    (hF : computeRunHashFilePath env nmd = Except.error e) :
    (process env).spawned = true ∧ (process env).markerWritten = false
    ∧ (env.spawnStatus = 0 → (process env).threw = false) := by
  rw [process_eval env nmd hB hN hC]
  simp only [hF]
  by_cases hs : env.spawnStatus ≠ 0
  · rw [if_pos hs]
    exact ⟨rfl, rfl, fun h0 => absurd h0 hs⟩
  · rw [if_neg hs]
    exact ⟨rfl, rfl, fun _ => rfl⟩

/-- A concrete project for C3: tsconfig readable but no lock file
candidate exists, so the lock file search raises NoLockFileFound
internally. -/
def envNoLock : Env where
  bazelTarget := false
  basePath := "/proj"
  tsConfigPath := "/proj/tsconfig.json"
  readFile := fun s => if s = "/proj/tsconfig.json" then some "tsdata" else none
  fsExists := fun s => s == "/proj/node_modules"
  writable := fun _ => true
  resolveSync := fun _ _ => Except.ok none
  spawnStatus := 0
  markerWriteOk := true
  transformThrows := fun _ => false
  hash := fun _ => "HH"

/-- Witness for C3 at the concrete envNoLock project: the lock file
search fails internally, yet the gate runs and does not throw. -/
theorem process_fail_open_on_fingerprint_error_witness :
    (process envNoLock).spawned = true ∧ (process envNoLock).threw = false :=
  ⟨(process_fail_open_on_fingerprint_error envNoLock "/proj/node_modules"
      FingerprintError.noLockFileFound rfl (by decide) (by decide) (by rfl)).1,
   (process_fail_open_on_fingerprint_error envNoLock "/proj/node_modules"
      FingerprintError.noLockFileFound rfl (by decide) (by decide) (by rfl)).2.2 rfl⟩

/-! ## Claim C9 -/

theorem bazelTarget_markerFail (env : Env) :
    (markerFailEnv env).bazelTarget = env.bazelTarget := rfl

theorem spawnStatus_markerFail (env : Env) :
    (markerFailEnv env).spawnStatus = env.spawnStatus := rfl

theorem fsExists_markerFail (env : Env) :
    (markerFailEnv env).fsExists = env.fsExists := rfl

theorem findNMD_markerFail (env : Env) :
    findNodeModulesDirectory (markerFailEnv env).fsExists (markerFailEnv env).basePath
      = findNodeModulesDirectory env.fsExists env.basePath := rfl

theorem coreReadOnly_markerFail (env : Env) (nmd : String) :
    coreReadOnly (markerFailEnv env) nmd = coreReadOnly env nmd := rfl

theorem computeRunHash_markerFail (env : Env) (nmd : String) :
    computeRunHashFilePath (markerFailEnv env) nmd = computeRunHashFilePath env nmd := rfl

/-- A marker write failure changes only the markerWritten component of
the outcome of the whole-tree gate. -/
theorem process_markerFail_eq (env : Env) :
    process (markerFailEnv env) = ⟨(process env).spawned, false, (process env).threw⟩ := by
  cases hbz : env.bazelTarget with
  | true =>
    rw [process_bazel env hbz, process_bazel (markerFailEnv env) hbz]
  | false =>
    cases hn : findNodeModulesDirectory env.fsExists env.basePath with
    | none =>
      rw [process_no_node_modules env hbz hn,
        process_no_node_modules (markerFailEnv env) hbz hn]
    | some nmd =>
      cases hc : coreReadOnly env nmd with
      | true =>
        rw [process_core_read_only env nmd hbz hn hc,
          process_core_read_only (markerFailEnv env) nmd hbz hn hc]
      | false =>
        rw [process_eval env nmd hbz hn hc,
          process_eval (markerFailEnv env) nmd hbz hn hc,
          computeRunHash_markerFail env nmd, spawnStatus_markerFail env,
          fsExists_markerFail env]
        cases hrh : computeRunHashFilePath env nmd with
        | ok p =>
          by_cases hex : env.fsExists p
          · simp [hex]
          · by_cases hs : env.spawnStatus ≠ 0
            · simp [hex, hs]
            · simp [hex, hs, markerFailEnv]
        | error er =>
          by_cases hs : env.spawnStatus ≠ 0
          · simp [hs]
          · simp [hs]

/-- C9: the run marker is written only after the whole-tree Transformer
subprocess completed with exit status zero, and any failure while
creating the marker directory or writing the marker file is fully
suppressed: the operation spawns exactly as before, throws exactly as
before, and simply ends with no marker written. -/
theorem marker_written_only_after_success (env : Env) :
    ((process env).markerWritten = true →
      (process env).spawned = true ∧ env.spawnStatus = 0)
    ∧ (process (markerFailEnv env)).spawned = (process env).spawned
    ∧ (process (markerFailEnv env)).threw = (process env).threw
    ∧ (process (markerFailEnv env)).markerWritten = false := by
  refine ⟨?_, ?_, ?_, ?_⟩
  · intro hmw
    cases hbz : env.bazelTarget with
    | true =>
      rw [process_bazel env hbz] at hmw
      exact absurd hmw (by simp)
    | false =>
      cases hn : findNodeModulesDirectory env.fsExists env.basePath with
      | none =>
        rw [process_no_node_modules env hbz hn] at hmw
        exact absurd hmw (by simp)
      | some nmd =>
        cases hc : coreReadOnly env nmd with
        | true =>
          rw [process_core_read_only env nmd hbz hn hc] at hmw
          exact absurd hmw (by simp)
        | false =>
          rw [process_eval env nmd hbz hn hc] at hmw ⊢
          cases hrh : computeRunHashFilePath env nmd with
          | ok p =>
            simp only [hrh] at hmw ⊢
            by_cases hex : env.fsExists p
            · rw [if_pos hex] at hmw
              exact absurd hmw (by simp)
            · rw [if_neg hex] at hmw ⊢
              by_cases hs : env.spawnStatus ≠ 0
              · rw [if_pos hs] at hmw
                exact absurd hmw (by simp)
              · rw [if_neg hs] at hmw ⊢
                exact ⟨rfl, by omega⟩
          | error er =>
            simp only [hrh] at hmw
            by_cases hs : env.spawnStatus ≠ 0
            · rw [if_pos hs] at hmw
              exact absurd hmw (by simp)
            · rw [if_neg hs] at hmw
              exact absurd hmw (by simp)
  · rw [process_markerFail_eq env]
  · rw [process_markerFail_eq env]
  · rw [process_markerFail_eq env]

/-- The envMarker project without the marker file on disk: the gate
runs, succeeds and writes the marker. -/
def envRun : Env := { envMarker with fsExists := fun s => s == "/proj/node_modules" }

/-- Witness for C9 at the concrete envRun project: the marker is written
there, the subprocess spawned with exit status zero, and the gate with a
failing marker write spawns exactly as the unmodified gate while writing
no marker. -/
theorem marker_written_only_after_success_witness :
    ((process envRun).markerWritten = true
      ∧ (process envRun).spawned = true ∧ envRun.spawnStatus = 0)
    ∧ (process (markerFailEnv envRun)).spawned = (process envRun).spawned
    ∧ (process (markerFailEnv envRun)).markerWritten = false :=
  ⟨⟨by decide, (marker_written_only_after_success envRun).1 (by decide)⟩,
   (marker_written_only_after_success envRun).2.1,
   (marker_written_only_after_success envRun).2.2.2⟩

/-! ## Claim C1 -/

/-- C1: the run fingerprint is a digest over exactly five inputs in this
fixed order: lock file bytes, lock file path, tool-config bytes (empty
when that file is absent or unreadable), build-config bytes, and the
build-config path made relative to the project root. Consequently two
runs with identical values of all five inputs get byte-identical
fingerprints, and two runs whose concatenated input sequences differ get
different fingerprints provided the hash does not collide on them
(injectivity hypothesis). -/
theorem fingerprint_five_inputs (env : Env) (nmd lockFilePath lockFileData tsconfigData : String)
    (hLock : findPackageManagerLockFile env.readFile (posixJoin nmd "..")
      = Except.ok (lockFilePath, lockFileData))
    (hTs : env.readFile env.tsConfigPath = some tsconfigData) :
    computeRunHashFilePath env nmd = Except.ok (posixJoin (posixJoin nmd ".cli-ngcc")
      (env.hash (hashInput lockFileData lockFilePath
        ((env.readFile (posixJoin (posixJoin nmd "..") "ngcc.config.js")).getD "")
        tsconfigData
        (posixRelative (posixJoin nmd "..") env.tsConfigPath)) ++ ".lock"))
    ∧ (∀ l1 p1 c1 t1 r1 l2 p2 c2 t2 r2 : String,
        (l1 = l2 ∧ p1 = p2 ∧ c1 = c2 ∧ t1 = t2 ∧ r1 = r2 →
          env.hash (hashInput l1 p1 c1 t1 r1) = env.hash (hashInput l2 p2 c2 t2 r2))
        ∧ (Function.Injective env.hash →
          hashInput l1 p1 c1 t1 r1 ≠ hashInput l2 p2 c2 t2 r2 →
          env.hash (hashInput l1 p1 c1 t1 r1) ≠ env.hash (hashInput l2 p2 c2 t2 r2))) := by
  constructor
  · simp only [computeRunHashFilePath, hTs, hLock]
  · intro l1 p1 c1 t1 r1 l2 p2 c2 t2 r2
    constructor
    · rintro ⟨rfl, rfl, rfl, rfl, rfl⟩
      rfl
    · intro hinj hne heq
      exact hne (hinj heq)

/-- Witness for C1 at the concrete envMarker project. -/
theorem fingerprint_five_inputs_witness :
    computeRunHashFilePath envMarker "/proj/node_modules"
      = Except.ok (posixJoin (posixJoin "/proj/node_modules" ".cli-ngcc")
        (envMarker.hash (hashInput "lockdata" "/proj/yarn.lock"
          ((envMarker.readFile
            (posixJoin (posixJoin "/proj/node_modules" "..") "ngcc.config.js")).getD "")
          "tsdata"
          (posixRelative (posixJoin "/proj/node_modules" "..")
            envMarker.tsConfigPath)) ++ ".lock")) :=
  (fingerprint_five_inputs envMarker "/proj/node_modules" "/proj/yarn.lock" "lockdata"
    "tsdata" (by rfl) (by rfl)).1

end Ngcc
